import Mathlib

/-!
Verification of the Backtester repository core against its specification.

The Python sources are shallowly embedded over exact rationals (`ℚ`):
pandas column operations become `List` functions, the ledger loop becomes a
structurally recursive state machine, and IEEE-float special values
(`inf`, `nan`) arising from division by zero are modelled by an explicit
extended-value type where the source relies on them.
-/

namespace Backtester

/-! ## PositionResolver (src/core/backtester.py, `Backtester.run`, lines 32-36)

`Signal` is an integer column.  `Position = Signal.shift(1).fillna(0)`:
row 0 becomes 0 and row t becomes signal (t-1).  `Trade =
Position.diff().fillna(0)`: row 0 becomes 0 and row t the difference of
consecutive positions. -/

/-- `xs.shift(1).fillna(0)`: prepend a 0 and drop the last element. -/
def shiftFill (xs : List ℤ) : List ℤ :=
  match xs with
  | [] => []
  | _ :: _ => 0 :: xs.dropLast

/-- `xs.diff().fillna(0)`: row 0 is 0, row t is `xs[t] - xs[t-1]`. -/
def diffFill (xs : List ℤ) : List ℤ :=
  match xs with
  | [] => []
  | _ :: _ => 0 :: List.zipWith (fun a b => a - b) xs.tail xs

/-- The Position column produced by `run` from the Signal column. -/
def positionsOf (signals : List ℤ) : List ℤ :=
  shiftFill signals

/-- The Trade column produced by `run` from the Signal column. -/
def tradesOf (signals : List ℤ) : List ℤ :=
  diffFill (positionsOf signals)

/-! ## LedgerEngine (src/core/backtester.py, `Backtester.run`, lines 39-62)

The loop maintains `(cash, quantity)`:
`quantity += trade; cash -= trade*price; holdings = quantity*price;
total = cash + holdings`, appending a row per day. -/

/-- One emitted row of the ledger: the appended cash, quantity, holdings
and total values for a day. -/
structure LedgerRow where
  cash : ℚ
  quantity : ℚ
  holdings : ℚ
  total : ℚ
  deriving Repr, DecidableEq

/-- The ledger loop over the zipped (Trade, Close) columns, carrying the
`(cash, quantity)` state exactly as the Python `for` loop does. -/
def ledgerSteps (cash quantity : ℚ) : List (ℚ × ℚ) → List LedgerRow
  | [] => []
  | (trade, price) :: rest =>
    let quantityN := quantity + trade
    let cashN := cash - trade * price
    let holdings := quantityN * price
    { cash := cashN, quantity := quantityN, holdings := holdings,
      total := cashN + holdings } :: ledgerSteps cashN quantityN rest

/-- `Backtester.run`'s ledger: start from `(initial_cash, 0)` and walk the
Trade and Close columns in lock step. -/
def runLedger (initialCash : ℚ) (trades closes : List ℚ) : List LedgerRow :=
  ledgerSteps initialCash 0 (trades.zip closes)

/-! ### Helper lemmas about lists -/

theorem zip_getD (a b : List ℚ) (h : a.length = b.length) (t : ℕ) :
    (a.zip b).getD t (0, 0) = (a.getD t 0, b.getD t 0) := by
  induction a generalizing b t with
  | nil =>
    have hb : b = [] := by
      cases b with
      | nil => rfl
      | cons x xs => simp at h
    subst hb; simp [List.getD]
  | cons x xs ih =>
    cases b with
    | nil => simp at h
    | cons y ys =>
      cases t with
      | zero => simp [List.getD]
      | succ t =>
        simp only [List.zip_cons_cons, List.getD_cons_succ]
        exact ih ys (by simpa using h) t

theorem zip_take_map_fst (a b : List ℚ) (h : a.length = b.length) (n : ℕ) :
    (((a.zip b).take n).map Prod.fst) = a.take n := by
  induction a generalizing b n with
  | nil =>
    have hb : b = [] := by
      cases b with
      | nil => rfl
      | cons x xs => simp at h
    subst hb; simp
  | cons x xs ih =>
    cases b with
    | nil => simp at h
    | cons y ys =>
      cases n with
      | zero => simp
      | succ n =>
        simp only [List.zip_cons_cons, List.take_succ_cons, List.map_cons]
        rw [ih ys (by simpa using h) n]

theorem zipWith_mul_take_sum (a b : List ℚ) (h : a.length = b.length) (n : ℕ) :
    (((a.zip b).take n).map (fun p => p.1 * p.2)).sum
      = ((List.zipWith (fun x y => x * y) a b).take n).sum := by
  induction a generalizing b n with
  | nil => simp
  | cons x xs ih =>
    cases b with
    | nil => simp
    | cons y ys =>
      cases n with
      | zero => simp
      | succ n =>
        simp only [List.zip_cons_cons, List.take_succ_cons, List.map_cons,
          List.zipWith_cons_cons, List.sum_cons]
        rw [ih ys (by simpa using h) n]

/-! ### Ledger lemmas -/

theorem ledgerSteps_length (cash quantity : ℚ) (ps : List (ℚ × ℚ)) :
    (ledgerSteps cash quantity ps).length = ps.length := by
  induction ps generalizing cash quantity with
  | nil => rfl
  | cons p rest ih =>
    obtain ⟨trade, price⟩ := p
    simp [ledgerSteps, ih]

/-- The default row used with `List.getD` on ledgers. -/
def defRow : LedgerRow := { cash := 0, quantity := 0, holdings := 0, total := 0 }

theorem ledgerSteps_total (cash quantity : ℚ) (ps : List (ℚ × ℚ)) (t : ℕ)
    (ht : t < ps.length) :
    ((ledgerSteps cash quantity ps).getD t defRow).total
      = ((ledgerSteps cash quantity ps).getD t defRow).cash
        + ((ledgerSteps cash quantity ps).getD t defRow).quantity * (ps.getD t (0, 0)).2 := by
  induction ps generalizing cash quantity t with
  | nil => simp at ht
  | cons p rest ih =>
    obtain ⟨trade, price⟩ := p
    cases t with
    | zero => simp [ledgerSteps, List.getD]
    | succ t =>
      simp only [ledgerSteps, List.getD_cons_succ]
      exact ih _ _ t (by simpa using ht)

theorem ledgerSteps_quantity (cash quantity : ℚ) (ps : List (ℚ × ℚ)) (t : ℕ)
    (ht : t < ps.length) :
    ((ledgerSteps cash quantity ps).getD t defRow).quantity
      = quantity + ((ps.take (t + 1)).map Prod.fst).sum := by
  induction ps generalizing cash quantity t with
  | nil => simp at ht
  | cons p rest ih =>
    obtain ⟨trade, price⟩ := p
    cases t with
    | zero => simp [ledgerSteps, List.getD]
    | succ t =>
      simp only [ledgerSteps, List.getD_cons_succ, List.take_succ_cons,
        List.map_cons, List.sum_cons]
      rw [ih _ _ t (by simpa using ht)]
      ring

theorem ledgerSteps_cash (cash quantity : ℚ) (ps : List (ℚ × ℚ)) (t : ℕ)
    (ht : t < ps.length) :
    ((ledgerSteps cash quantity ps).getD t defRow).cash
      = cash - ((ps.take (t + 1)).map (fun p => p.1 * p.2)).sum := by
  induction ps generalizing cash quantity t with
  | nil => simp at ht
  | cons p rest ih =>
    obtain ⟨trade, price⟩ := p
    cases t with
    | zero => simp [ledgerSteps, List.getD]
    | succ t =>
      simp only [ledgerSteps, List.getD_cons_succ, List.take_succ_cons,
        List.map_cons, List.sum_cons]
      rw [ih _ _ t (by simpa using ht)]
      ring

/-- C1: after `run()` completes, every ledger row satisfies
`total = cash + quantity * close`, `quantity` is the running sum of the
trade deltas, and `cash` is `initial_cash` minus the running sum of
`trade * close` (equivalently `cash[t] = cash[t-1] - trade[t]*close[t]`
starting from `(initial_cash, 0)`): no cash enters or leaves outside of
trade execution. -/
theorem C1_ledger_conservation (initialCash : ℚ) (trades closes : List ℚ)
    (hlen : trades.length = closes.length) (t : ℕ)
    (ht : t < (runLedger initialCash trades closes).length) :
    ((runLedger initialCash trades closes).getD t defRow).total
        = ((runLedger initialCash trades closes).getD t defRow).cash
          + ((runLedger initialCash trades closes).getD t defRow).quantity * closes.getD t 0
      ∧ ((runLedger initialCash trades closes).getD t defRow).quantity
        = (trades.take (t + 1)).sum
      ∧ ((runLedger initialCash trades closes).getD t defRow).cash
        = initialCash - ((List.zipWith (fun x y => x * y) trades closes).take (t + 1)).sum := by
  have hps : t < (trades.zip closes).length := by
    simpa [runLedger, ledgerSteps_length] using ht
  refine ⟨?_, ?_, ?_⟩
  · have h := ledgerSteps_total initialCash 0 (trades.zip closes) t hps
    rw [zip_getD trades closes hlen t] at h
    exact h
  · have h := ledgerSteps_quantity initialCash 0 (trades.zip closes) t hps
    rw [zip_take_map_fst trades closes hlen (t + 1)] at h
    simpa using h
  · have h := ledgerSteps_cash initialCash 0 (trades.zip closes) t hps
    rw [zipWith_mul_take_sum trades closes hlen (t + 1)] at h
    exact h

/-- Witness for C1 on a concrete three-day ledger. -/
theorem C1_ledger_conservation_witness :
    ([(1 : ℚ), 0, -1].length = [(100 : ℚ), 110, 105].length
        ∧ 1 < (runLedger 1000 [(1 : ℚ), 0, -1] [(100 : ℚ), 110, 105]).length)
      ∧ (((runLedger 1000 [(1 : ℚ), 0, -1] [(100 : ℚ), 110, 105]).getD 1 defRow).total
          = ((runLedger 1000 [(1 : ℚ), 0, -1] [(100 : ℚ), 110, 105]).getD 1 defRow).cash
            + ((runLedger 1000 [(1 : ℚ), 0, -1] [(100 : ℚ), 110, 105]).getD 1 defRow).quantity
              * [(100 : ℚ), 110, 105].getD 1 0
        ∧ ((runLedger 1000 [(1 : ℚ), 0, -1] [(100 : ℚ), 110, 105]).getD 1 defRow).quantity
          = ([(1 : ℚ), 0, -1].take 2).sum
        ∧ ((runLedger 1000 [(1 : ℚ), 0, -1] [(100 : ℚ), 110, 105]).getD 1 defRow).cash
          = 1000 - ((List.zipWith (fun x y => x * y) [(1 : ℚ), 0, -1] [(100 : ℚ), 110, 105]).take 2).sum) :=
  ⟨⟨by decide, by decide⟩,
    C1_ledger_conservation 1000 [(1 : ℚ), 0, -1] [(100 : ℚ), 110, 105] (by decide) 1 (by decide)⟩

/-! ### PositionResolver lemmas -/

theorem dropLast_getD (xs : List ℤ) (i : ℕ) (h : i + 1 < xs.length) :
    xs.dropLast.getD i 0 = xs.getD i 0 := by
  induction xs generalizing i with
  | nil => simp at h
  | cons x rest ih =>
    cases rest with
    | nil => simp at h
    | cons y r2 =>
      cases i with
      | zero => rfl
      | succ i =>
        simp only [List.dropLast_cons₂, List.getD_cons_succ]
        exact ih i (by simpa using h)

theorem zipWith_sub_getD (a b : List ℤ) (i : ℕ) (ha : i < a.length) (hb : i < b.length) :
    (List.zipWith (fun x y => x - y) a b).getD i 0 = a.getD i 0 - b.getD i 0 := by
  induction a generalizing b i with
  | nil => simp at ha
  | cons x xs ih =>
    cases b with
    | nil => simp at hb
    | cons y ys =>
      cases i with
      | zero => rfl
      | succ i =>
        simp only [List.zipWith_cons_cons, List.getD_cons_succ]
        exact ih ys i (by simpa using ha) (by simpa using hb)

theorem zipWith_sub_telescope (rest : List ℤ) (x : ℤ) :
    (List.zipWith (fun a b => a - b) rest (x :: rest)).sum = rest.getLastD x - x := by
  induction rest generalizing x with
  | nil => simp
  | cons y r2 ih =>
    simp only [List.zipWith_cons_cons, List.sum_cons, List.getLastD_cons]
    rw [ih y]
    ring

/-- C2: the Position column has `position[0] = 0` and
`position[t] = signal[t-1]` for `1 ≤ t` (one-day execution lag), the Trade
column satisfies `trade[0] = 0` (the difference against the flat starting
position `position[-1] = 0 = position[0]`) and
`trade[t] = position[t] - position[t-1]` for `1 ≤ t`, and the trades sum
to the last position. -/
theorem C2_position_resolver (signals : List ℤ) (hne : signals ≠ []) :
    (positionsOf signals).getD 0 0 = 0
      ∧ (∀ t, 1 ≤ t → t < signals.length →
          (positionsOf signals).getD t 0 = signals.getD (t - 1) 0)
      ∧ (tradesOf signals).getD 0 0 = 0
      ∧ (∀ t, 1 ≤ t → t < signals.length →
          (tradesOf signals).getD t 0
            = (positionsOf signals).getD t 0 - (positionsOf signals).getD (t - 1) 0)
      ∧ (tradesOf signals).sum = (positionsOf signals).getLastD 0 := by
  obtain ⟨s, rest, rfl⟩ : ∃ s rest, signals = s :: rest := by
    cases signals with
    | nil => exact absurd rfl hne
    | cons s rest => exact ⟨s, rest, rfl⟩
  have hpos : positionsOf (s :: rest) = 0 :: (s :: rest).dropLast := rfl
  have htr : tradesOf (s :: rest)
      = 0 :: List.zipWith (fun a b => a - b) ((s :: rest).dropLast) (0 :: (s :: rest).dropLast) := rfl
  have hbodylen : ((s :: rest).dropLast).length = rest.length := by simp
  refine ⟨by simp [hpos], ?_, by simp [htr], ?_, ?_⟩
  · intro t h1 h2
    obtain ⟨u, rfl⟩ : ∃ u, t = u + 1 := ⟨t - 1, (Nat.succ_pred_eq_of_pos h1).symm⟩
    simp only [hpos, List.getD_cons_succ, Nat.add_sub_cancel]
    exact dropLast_getD (s :: rest) u (by simpa using h2)
  · intro t h1 h2
    obtain ⟨u, rfl⟩ : ∃ u, t = u + 1 := ⟨t - 1, (Nat.succ_pred_eq_of_pos h1).symm⟩
    simp only [htr, hpos, List.getD_cons_succ, Nat.add_sub_cancel]
    have hu : u < rest.length := by simp at h2; omega
    rw [zipWith_sub_getD _ _ u
      (by simp only [List.length_dropLast, List.length_cons]; omega)
      (by simp only [List.length_cons, List.length_dropLast]; omega)]
  · simp only [htr, hpos, List.sum_cons, List.getLastD_cons]
    rw [zipWith_sub_telescope ((s :: rest).dropLast) 0]
    simp

/-- Witness for C2: on the signal series `[1, 1, 0]` the resolver yields
positions `[0, 1, 1]` and trades `[0, 1, 0]` with the stated properties. -/
theorem C2_position_resolver_witness :
    ([(1 : ℤ), 1, 0] ≠ [] )
      ∧ (positionsOf [(1 : ℤ), 1, 0]).getD 0 0 = 0
      ∧ (positionsOf [(1 : ℤ), 1, 0]).getD 1 0 = [(1 : ℤ), 1, 0].getD 0 0
      ∧ (tradesOf [(1 : ℤ), 1, 0]).getD 0 0 = 0
      ∧ (tradesOf [(1 : ℤ), 1, 0]).getD 2 0
        = (positionsOf [(1 : ℤ), 1, 0]).getD 2 0 - (positionsOf [(1 : ℤ), 1, 0]).getD 1 0
      ∧ (tradesOf [(1 : ℤ), 1, 0]).sum = (positionsOf [(1 : ℤ), 1, 0]).getLastD 0 := by
  have h := C2_position_resolver [(1 : ℤ), 1, 0] (by decide)
  exact ⟨by decide, h.1, h.2.1 1 (by decide) (by decide), h.2.2.1,
    h.2.2.2.1 2 (by decide) (by decide), h.2.2.2.2⟩

/-! ## MetricsEngine: maximum drawdown
(src/core/backtester.py, `Backtester.evaluate`, lines 72-75)

`running_max = Total.cummax(); drawdown = Total / running_max - 1;
max_drawdown = drawdown.min()`. -/

/-- `cummax` with the running maximum `m` carried through. -/
def rmAux (m : ℚ) : List ℚ → List ℚ
  | [] => []
  | y :: ys => max m y :: rmAux (max m y) ys

/-- `Total.cummax()`: prefix maxima of the series. -/
def runningMax : List ℚ → List ℚ
  | [] => []
  | x :: xs => x :: rmAux x xs

/-- `Total / running_max - 1`, elementwise. -/
def drawdowns (total : List ℚ) : List ℚ :=
  List.zipWith (fun t m => t / m - 1) total (runningMax total)

/-- `drawdown.min()` (0 as the default on an empty ledger). -/
def maxDrawdown (total : List ℚ) : ℚ :=
  ((drawdowns total).min?).getD 0

/-- The Total column of a ledger. -/
def totalsOf (rows : List LedgerRow) : List ℚ :=
  rows.map LedgerRow.total

theorem rmAux_bound (ys : List ℚ) (m : ℚ) (hm : 0 < m) (hy : ∀ y ∈ ys, 0 < y) :
    ∀ d ∈ List.zipWith (fun t r => t / r - 1) ys (rmAux m ys), -1 < d ∧ d ≤ 0 := by
  induction ys generalizing m with
  | nil => simp [rmAux]
  | cons y ys ih =>
    have hy0 : 0 < y := hy y (by simp)
    have hmax : 0 < max m y := lt_max_of_lt_right hy0
    intro d hd
    simp only [rmAux, List.zipWith_cons_cons, List.mem_cons] at hd
    rcases hd with rfl | hd
    · constructor
      · have : 0 < y / max m y := div_pos hy0 hmax
        linarith
      · have : y / max m y ≤ 1 := (div_le_one hmax).mpr (le_max_right m y)
        linarith
    · exact ih (max m y) hmax (fun z hz => hy z (by simp [hz])) d hd

theorem drawdowns_bound (total : List ℚ) (h : ∀ x ∈ total, 0 < x) :
    ∀ d ∈ drawdowns total, -1 < d ∧ d ≤ 0 := by
  cases total with
  | nil => simp [drawdowns, runningMax]
  | cons x xs =>
    have hx : 0 < x := h x (by simp)
    intro d hd
    simp only [drawdowns, runningMax, List.zipWith_cons_cons, List.mem_cons] at hd
    rcases hd with rfl | hd
    · constructor
      · have : x / x = 1 := div_self (ne_of_gt hx)
        rw [this]; norm_num
      · have : x / x = 1 := div_self (ne_of_gt hx)
        rw [this]; norm_num
    · exact rmAux_bound xs x hx (fun z hz => h z (by simp [hz])) d hd

/-- C4 counterexample: a ledger produced by `run()` with strictly positive
prices and non-negative quantity whose maximum drawdown is below `-1`
(initial cash 100000, closes `[300000, 300000, 1]`, trades `[0, 1, 0]`:
the total equity goes negative, so `total/running_max - 1 < -1`). -/
theorem C4_drawdown_bound_counterexample :
    (∀ c ∈ [(300000 : ℚ), 300000, 1], 0 < c)
      ∧ (∀ r ∈ runLedger 100000 [(0 : ℚ), 1, 0] [(300000 : ℚ), 300000, 1], 0 ≤ r.quantity)
      ∧ maxDrawdown (totalsOf (runLedger 100000 [(0 : ℚ), 1, 0] [(300000 : ℚ), 300000, 1])) < -1 := by
  refine ⟨by decide, by norm_num [runLedger, ledgerSteps, List.zip], ?_⟩
  have : totalsOf (runLedger 100000 [(0 : ℚ), 1, 0] [(300000 : ℚ), 300000, 1])
      = [100000, 100000, -199999] := by
    norm_num [runLedger, ledgerSteps, totalsOf, List.zip]
  rw [this]
  have hdd : drawdowns [(100000 : ℚ), 100000, -199999]
      = [0, 0, -199999 / 100000 - 1] := by
    norm_num [drawdowns, runningMax, rmAux]
  rw [maxDrawdown, hdd]
  simp [List.min?]
  norm_num

/-- C4 (amended): for every ledger produced by `run()` with strictly
positive prices, non-negative quantity and strictly positive total
equity, the maximum drawdown lies in `[-1, 0]`. -/
theorem C4_drawdown_bound (initialCash : ℚ) (trades closes : List ℚ)
    (hne : runLedger initialCash trades closes ≠ [])
    (hclose : ∀ c ∈ closes, 0 < c)
    (hqty : ∀ r ∈ runLedger initialCash trades closes, 0 ≤ r.quantity)
    (htot : ∀ r ∈ runLedger initialCash trades closes, 0 < r.total) :
    -1 ≤ maxDrawdown (totalsOf (runLedger initialCash trades closes))
      ∧ maxDrawdown (totalsOf (runLedger initialCash trades closes)) ≤ 0 := by
  set T := totalsOf (runLedger initialCash trades closes) with hT
  have hpos : ∀ x ∈ T, 0 < x := by
    intro x hx
    simp only [hT, totalsOf, List.mem_map] at hx
    obtain ⟨r, hr, rfl⟩ := hx
    exact htot r hr
  have hTne : T ≠ [] := by
    simp only [hT, totalsOf]
    intro hcon
    exact hne (List.map_eq_nil_iff.mp hcon)
  have hdne : drawdowns T ≠ [] := by
    obtain ⟨x, xs, hx⟩ : ∃ x xs, T = x :: xs := by
      cases hc : T with
      | nil => exact absurd hc hTne
      | cons x xs => exact ⟨x, xs, rfl⟩
    simp [drawdowns, runningMax, hx]
  obtain ⟨m, hm⟩ : ∃ m, (drawdowns T).min? = some m := by
    cases hc : drawdowns T with
    | nil => exact absurd hc hdne
    | cons x xs => exact ⟨_, List.min?_cons⟩
  have hmem : m ∈ drawdowns T := List.min?_mem (fun a b => min_choice a b) hm
  have hbd := drawdowns_bound T hpos m hmem
  have : maxDrawdown T = m := by simp [maxDrawdown, hm]
  rw [this]
  exact ⟨le_of_lt hbd.1, hbd.2⟩

/-- Witness for C4 on a concrete always-solvent ledger. -/
theorem C4_drawdown_bound_witness :
    (runLedger 1000 [(0 : ℚ), 1, 0] [(100 : ℚ), 110, 105] ≠ []
        ∧ (∀ c ∈ [(100 : ℚ), 110, 105], 0 < c)
        ∧ (∀ r ∈ runLedger 1000 [(0 : ℚ), 1, 0] [(100 : ℚ), 110, 105], 0 ≤ r.quantity)
        ∧ (∀ r ∈ runLedger 1000 [(0 : ℚ), 1, 0] [(100 : ℚ), 110, 105], 0 < r.total))
      ∧ (-1 ≤ maxDrawdown (totalsOf (runLedger 1000 [(0 : ℚ), 1, 0] [(100 : ℚ), 110, 105]))
        ∧ maxDrawdown (totalsOf (runLedger 1000 [(0 : ℚ), 1, 0] [(100 : ℚ), 110, 105])) ≤ 0) :=
  ⟨⟨by norm_num [runLedger, ledgerSteps, List.zip]; simp, by decide,
      by norm_num [runLedger, ledgerSteps, List.zip],
      by norm_num [runLedger, ledgerSteps, List.zip]⟩,
    C4_drawdown_bound 1000 [(0 : ℚ), 1, 0] [(100 : ℚ), 110, 105]
      (by norm_num [runLedger, ledgerSteps, List.zip]; simp) (by decide)
      (by norm_num [runLedger, ledgerSteps, List.zip])
      (by norm_num [runLedger, ledgerSteps, List.zip])⟩

/-! ## MetricsEngine: Sharpe ratio
(src/core/backtester.py: `run` line 63 builds
`Returns = Total.pct_change().fillna(0)`; `evaluate` line 70 computes
`Returns.mean() / Returns.std() * 252 ** 0.5` with pandas' sample
standard deviation, ddof = 1). -/

/-- `xs.pct_change()` without its leading NaN: `xs[t]/xs[t-1] - 1`. -/
def pctChange (xs : List ℚ) : List ℚ :=
  List.zipWith (fun a b => a / b - 1) xs.tail xs

/-- The Returns column built by `run`: `pct_change().fillna(0)`, so the
first row becomes 0 rather than being dropped. -/
def returnsFill (total : List ℚ) : List ℚ :=
  match total with
  | [] => []
  | _ :: _ => 0 :: pctChange total

/-- `Series.mean()`. -/
def listMean (xs : List ℚ) : ℚ :=
  xs.sum / xs.length

/-- `Series.var()` with pandas' default `ddof = 1`. -/
def listVar (xs : List ℚ) : ℚ :=
  (xs.map (fun x => (x - listMean xs) ^ 2)).sum / ((xs.length : ℚ) - 1)

/-- `mean / std * 252 ** 0.5` on a return series. -/
noncomputable def sharpeOf (rs : List ℚ) : ℝ :=
  ((listMean rs : ℝ) / Real.sqrt (listVar rs)) * Real.sqrt 252

/-- The Sharpe ratio `evaluate()` computes on the ledger produced by
`run()`: the Returns column is `Total.pct_change().fillna(0)`. -/
noncomputable def evaluateSharpe (initialCash : ℚ) (trades closes : List ℚ) : ℝ :=
  sharpeOf (returnsFill (totalsOf (runLedger initialCash trades closes)))

theorem zipWith_getD_q (f : ℚ → ℚ → ℚ) (a b : List ℚ) (i : ℕ)
    (ha : i < a.length) (hb : i < b.length) :
    (List.zipWith f a b).getD i 0 = f (a.getD i 0) (b.getD i 0) := by
  induction a generalizing b i with
  | nil => simp at ha
  | cons x xs ih =>
    cases b with
    | nil => simp at hb
    | cons y ys =>
      cases i with
      | zero => rfl
      | succ i =>
        simp only [List.zipWith_cons_cons, List.getD_cons_succ]
        exact ih ys i (by simpa using ha) (by simpa using hb)

theorem tail_getD_q (xs : List ℚ) (i : ℕ) :
    xs.tail.getD i 0 = xs.getD (i + 1) 0 := by
  cases xs with
  | nil => simp [List.getD]
  | cons x rest => rfl

/-- C3 counterexample: on the ledger of a four-day run (initial cash 100,
trades `[0, 1, 0, 0]`, closes `[100, 100, 200, 100]`, total equity
`[100, 100, 200, 100]`), the Sharpe ratio computed by `evaluate()` — over
the Returns series with its first element filled with 0 — differs from
the claimed formula over the return series with the first element
excluded: the squares of the two (positive) values are `189/19` and `12`. -/
theorem C3_sharpe_counterexample :
    evaluateSharpe 100 [(0 : ℚ), 1, 0, 0] [(100 : ℚ), 100, 200, 100]
      ≠ sharpeOf (pctChange (totalsOf (runLedger 100 [(0 : ℚ), 1, 0, 0] [(100 : ℚ), 100, 200, 100]))) := by
  have htot : totalsOf (runLedger 100 [(0 : ℚ), 1, 0, 0] [(100 : ℚ), 100, 200, 100])
      = [100, 100, 200, 100] := by
    norm_num [runLedger, ledgerSteps, totalsOf, List.zip]
  have hrf : returnsFill [(100 : ℚ), 100, 200, 100] = [0, 0, 1, -1/2] := by
    norm_num [returnsFill, pctChange]
  have hpc : pctChange [(100 : ℚ), 100, 200, 100] = [0, 1, -1/2] := by
    norm_num [pctChange]
  have hm1 : listMean [(0 : ℚ), 0, 1, -1/2] = 1/8 := by
    norm_num [listMean]
  have hv1 : listVar [(0 : ℚ), 0, 1, -1/2] = 19/48 := by
    norm_num [listVar, listMean]
  have hm2 : listMean [(0 : ℚ), 1, -1/2] = 1/6 := by
    norm_num [listMean]
  have hv2 : listVar [(0 : ℚ), 1, -1/2] = 7/12 := by
    norm_num [listVar, listMean]
  have e1 : evaluateSharpe 100 [(0 : ℚ), 1, 0, 0] [(100 : ℚ), 100, 200, 100] ^ 2
      = 189 / 19 := by
    rw [evaluateSharpe, htot, hrf, sharpeOf, hm1, hv1]
    rw [mul_pow, div_pow, Real.sq_sqrt (by norm_num : ((((19 : ℚ)/48 : ℚ)) : ℝ) ≥ 0),
      Real.sq_sqrt (by norm_num : ((252 : ℝ)) ≥ 0)]
    push_cast
    norm_num
  have e2 : sharpeOf (pctChange (totalsOf (runLedger 100 [(0 : ℚ), 1, 0, 0] [(100 : ℚ), 100, 200, 100]))) ^ 2
      = 12 := by
    rw [htot, hpc, sharpeOf, hm2, hv2]
    rw [mul_pow, div_pow, Real.sq_sqrt (by norm_num : ((((7 : ℚ)/12 : ℚ)) : ℝ) ≥ 0),
      Real.sq_sqrt (by norm_num : ((252 : ℝ)) ≥ 0)]
    push_cast
    norm_num
  intro h
  have : (189 / 19 : ℝ) = 12 := by rw [← e1, ← e2, h]
  norm_num at this

/-- C3 (amended): the Sharpe ratio computed by `evaluate()` equals
`mean(R) / stdev(R) * sqrt(252)` where `R` is the ledger's daily return
series with the first element included as 0 (pandas
`pct_change().fillna(0)`): `R` has the ledger's length, `R[0] = 0`, and
`R[t] = T[t]/T[t-1] - 1` for `t ≥ 1`. -/
theorem C3_sharpe_formula (initialCash : ℚ) (trades closes : List ℚ) :
    evaluateSharpe initialCash trades closes
        = ((listMean (returnsFill (totalsOf (runLedger initialCash trades closes))) : ℝ)
            / Real.sqrt (listVar (returnsFill (totalsOf (runLedger initialCash trades closes)))))
          * Real.sqrt 252
      ∧ (returnsFill (totalsOf (runLedger initialCash trades closes))).length
        = (totalsOf (runLedger initialCash trades closes)).length
      ∧ (returnsFill (totalsOf (runLedger initialCash trades closes))).getD 0 0 = 0
      ∧ (∀ t, 1 ≤ t → t < (totalsOf (runLedger initialCash trades closes)).length →
          (returnsFill (totalsOf (runLedger initialCash trades closes))).getD t 0
            = (totalsOf (runLedger initialCash trades closes)).getD t 0
                / (totalsOf (runLedger initialCash trades closes)).getD (t - 1) 0
              - 1) := by
  set T := totalsOf (runLedger initialCash trades closes) with hTdef
  refine ⟨rfl, ?_, ?_, ?_⟩
  · cases T with
    | nil => rfl
    | cons x xs => simp [returnsFill, pctChange]
  · cases T with
    | nil => rfl
    | cons x xs => rfl
  · intro t h1 h2
    obtain ⟨u, rfl⟩ : ∃ u, t = u + 1 := ⟨t - 1, (Nat.succ_pred_eq_of_pos h1).symm⟩
    obtain ⟨x, xs, hx⟩ : ∃ x xs, T = x :: xs := by
      cases hc : T with
      | nil => rw [hc] at h2; simp at h2
      | cons x xs => exact ⟨x, xs, rfl⟩
    rw [hx] at h2
    have hu : u < xs.length := by simp at h2; omega
    have hz := zipWith_getD_q (fun a b => a / b - 1)
      ((x :: xs).tail) (x :: xs) u (by simpa using hu)
      (by simp only [List.length_cons]; omega)
    rw [hx]
    simp only [returnsFill, List.getD_cons_succ, Nat.add_sub_cancel]
    rw [pctChange, hz, tail_getD_q]
    simp only [List.getD_cons_succ]

/-! ## SignalGenerator: the RSI oscillator
(src/core/strategies.py `RSIStrategy.generate_signals` lines 27-41 and
src/backtester.py `RSIStrategy.compute_rsi`/`generate_signals` lines
30-50).

The pandas float columns can hold `inf` and `NaN` (`avg_gain / avg_loss`
divides by zero on windows with no losses, and rolling means are `NaN`
during warm-up), so the RSI column is modelled over an explicit
IEEE-754-style extended value type. -/

/-- An IEEE-754-style extended value: `NaN`, the two infinities, or a
finite rational. -/
inductive FloatE where
  | nan
  | inf
  | ninf
  | fin (q : ℚ)
  deriving Repr, DecidableEq

namespace FloatE

/-- IEEE addition on extended values. -/
def add : FloatE → FloatE → FloatE
  | nan, _ => nan
  | _, nan => nan
  | inf, ninf => nan
  | ninf, inf => nan
  | inf, _ => inf
  | _, inf => inf
  | ninf, _ => ninf
  | _, ninf => ninf
  | fin a, fin b => fin (a + b)

/-- IEEE subtraction on extended values. -/
def sub : FloatE → FloatE → FloatE
  | nan, _ => nan
  | _, nan => nan
  | inf, inf => nan
  | ninf, ninf => nan
  | inf, _ => inf
  | ninf, _ => ninf
  | fin _, inf => ninf
  | fin _, ninf => inf
  | fin a, fin b => fin (a - b)

/-- IEEE division on extended values; numpy yields `inf` for `x/0` with
`x > 0`, `-inf` for `x < 0` and `NaN` for `0/0`. -/
def div : FloatE → FloatE → FloatE
  | nan, _ => nan
  | _, nan => nan
  | inf, inf => nan
  | inf, ninf => nan
  | ninf, inf => nan
  | ninf, ninf => nan
  | inf, fin b => if b < 0 then ninf else inf
  | ninf, fin b => if b < 0 then inf else ninf
  | fin _, inf => fin 0
  | fin _, ninf => fin 0
  | fin a, fin b =>
    if b = 0 then (if 0 < a then inf else if a < 0 then ninf else nan)
    else fin (a / b)

/-- `x < c` against a finite threshold; any comparison with `NaN` is
false. -/
def ltQ : FloatE → ℚ → Bool
  | nan, _ => false
  | inf, _ => false
  | ninf, _ => true
  | fin q, c => decide (q < c)

/-- `x > c` against a finite threshold; any comparison with `NaN` is
false. -/
def gtQ : FloatE → ℚ → Bool
  | nan, _ => false
  | inf, _ => true
  | ninf, _ => false
  | fin q, c => decide (c < q)

end FloatE

/-- `gain = delta.where(delta > 0, 0)` on `delta = Close.diff()`: the
leading `NaN` delta compares false and becomes 0. -/
def gainsOf (closes : List ℚ) : List ℚ :=
  match closes with
  | [] => []
  | _ :: _ => 0 :: List.zipWith (fun a b => if 0 < a - b then a - b else 0) closes.tail closes

/-- `loss = -delta.where(delta < 0, 0)` on `delta = Close.diff()`. -/
def lossesOf (closes : List ℚ) : List ℚ :=
  match closes with
  | [] => []
  | _ :: _ => 0 :: List.zipWith (fun a b => if a - b < 0 then -(a - b) else 0) closes.tail closes

/-- `Series.rolling(window=w).mean()`: `NaN` until `w` observations are
available, then the mean of the last `w` values. -/
def rollMeanF (w : ℕ) (xs : List ℚ) : List FloatE :=
  (List.range xs.length).map
    (fun i => if i + 1 < w then FloatE.nan else FloatE.fin (((xs.drop (i + 1 - w)).take w).sum / w))

/-- `rs = avg_gain / avg_loss; RSI = 100 - 100 / (1 + rs)` in float
semantics. -/
def rsiOf (g l : FloatE) : FloatE :=
  FloatE.sub (FloatE.fin 100)
    (FloatE.div (FloatE.fin 100) (FloatE.add (FloatE.fin 1) (FloatE.div g l)))

/-- The RSI column over a close-price series. -/
def rsiSeries (w : ℕ) (closes : List ℚ) : List FloatE :=
  List.zipWith rsiOf (rollMeanF w (gainsOf closes)) (rollMeanF w (lossesOf closes))

/-- The Signal column of `RSIStrategy.generate_signals`
(src/backtester.py lines 45-48): the column starts at 0.0, is set to 1
where `RSI < lower`, then set to 0 where `RSI > upper`; the trailing
`ffill()` is a no-op because the column never holds `NaN`.  The result is
a pointwise threshold comparison. -/
def rsiSignalsCode (w : ℕ) (lower upper : ℚ) (closes : List ℚ) : List ℚ :=
  (rsiSeries w closes).map
    (fun r => if r.gtQ upper then 0 else if r.ltQ lower then 1 else 0)

/-- The latching signal the claim describes: 1 below the lower threshold,
0 above the upper threshold, otherwise the previous day's signal
(initially 0). -/
def latchGo (lower upper : ℚ) (prev : ℚ) : List FloatE → List ℚ
  | [] => []
  | r :: rs =>
    let s := if r.ltQ lower then 1 else if r.gtQ upper then 0 else prev
    s :: latchGo lower upper s rs

/-- The latching/hysteresis RSI signal series claimed by the spec. -/
def rsiSignalsLatch (w : ℕ) (lower upper : ℚ) (closes : List ℚ) : List ℚ :=
  latchGo lower upper 0 (rsiSeries w closes)

/-- C5: on closes `[100, 90, 80, 85]` with window 2 and thresholds 30/70,
the RSI series is `[NaN, 0, 0, 100/3]`; on day 3 the oscillator sits
between the thresholds after a buy signal, so the latching signal claimed
by the spec holds 1, but the code's pointwise threshold emits 0 (the
`ffill()` in `generate_signals` is dead: the Signal column is initialised
to 0.0, never `NaN`). -/
theorem C5_rsi_signal_pointwise_not_latching :
    rsiSignalsCode 2 30 70 [(100 : ℚ), 90, 80, 85] = [0, 1, 1, 0]
      ∧ rsiSignalsLatch 2 30 70 [(100 : ℚ), 90, 80, 85] = [0, 1, 1, 1]
      ∧ rsiSignalsCode 2 30 70 [(100 : ℚ), 90, 80, 85]
        ≠ rsiSignalsLatch 2 30 70 [(100 : ℚ), 90, 80, 85] := by
  have hrsi : rsiSeries 2 [(100 : ℚ), 90, 80, 85]
      = [FloatE.nan, FloatE.fin 0, FloatE.fin 0, FloatE.fin (100/3)] := by
    norm_num [rsiSeries, rollMeanF, gainsOf, lossesOf, rsiOf, FloatE.div, FloatE.add,
      FloatE.sub, List.range_succ]
  refine ⟨?_, ?_, ?_⟩
  · rw [rsiSignalsCode, hrsi]
    norm_num [FloatE.gtQ, FloatE.ltQ]
  · rw [rsiSignalsLatch, hrsi]
    norm_num [latchGo, FloatE.gtQ, FloatE.ltQ]
  · rw [rsiSignalsCode, rsiSignalsLatch, hrsi]
    norm_num [latchGo, FloatE.gtQ, FloatE.ltQ]

theorem zipWith_getD_gen {α β γ : Type} (f : α → β → γ) (da : α) (db : β) (dc : γ)
    (a : List α) (b : List β) (i : ℕ) (ha : i < a.length) (hb : i < b.length) :
    (List.zipWith f a b).getD i dc = f (a.getD i da) (b.getD i db) := by
  induction a generalizing b i with
  | nil => simp at ha
  | cons x xs ih =>
    cases b with
    | nil => simp at hb
    | cons y ys =>
      cases i with
      | zero => rfl
      | succ i =>
        simp only [List.zipWith_cons_cons, List.getD_cons_succ]
        exact ih ys i (by simpa using ha) (by simpa using hb)

theorem rollMeanF_length (w : ℕ) (xs : List ℚ) :
    (rollMeanF w xs).length = xs.length := by
  simp [rollMeanF]

theorem gainsOf_length (closes : List ℚ) : (gainsOf closes).length = closes.length := by
  cases closes with
  | nil => rfl
  | cons c cs => simp [gainsOf]

theorem lossesOf_length (closes : List ℚ) : (lossesOf closes).length = closes.length := by
  cases closes with
  | nil => rfl
  | cons c cs => simp [lossesOf]

/-- C7: whenever the rolling average loss over the RSI window is 0 while
the rolling average gain is finite and positive, the oscillator value on
that day equals 100: the division by zero yields `rs = +inf` (not a
fault) and `100 - 100/(1 + inf) = 100`. -/
theorem C7_rsi_avg_loss_zero (closes : List ℚ) (w i : ℕ) (g : ℚ)
    (hi : i < closes.length)
    (hg : (rollMeanF w (gainsOf closes)).getD i FloatE.nan = FloatE.fin g)
    (hl : (rollMeanF w (lossesOf closes)).getD i FloatE.nan = FloatE.fin 0)
    (hgpos : 0 < g) :
    (rsiSeries w closes).getD i FloatE.nan = FloatE.fin 100 := by
  rw [rsiSeries, zipWith_getD_gen rsiOf FloatE.nan FloatE.nan FloatE.nan _ _ i
    (by rw [rollMeanF_length, gainsOf_length]; exact hi)
    (by rw [rollMeanF_length, lossesOf_length]; exact hi)]
  rw [hg, hl]
  simp [rsiOf, FloatE.div, FloatE.add, FloatE.sub, hgpos]

/-- Witness for C7: closes `[1, 2, 4]` (monotonically rising), window 2,
day 2: average gain `3/2 > 0`, average loss 0, oscillator 100. -/
theorem C7_rsi_avg_loss_zero_witness :
    ((2 : ℕ) < [(1 : ℚ), 2, 4].length
        ∧ (rollMeanF 2 (gainsOf [(1 : ℚ), 2, 4])).getD 2 FloatE.nan = FloatE.fin (3/2)
        ∧ (rollMeanF 2 (lossesOf [(1 : ℚ), 2, 4])).getD 2 FloatE.nan = FloatE.fin 0
        ∧ (0 : ℚ) < 3/2)
      ∧ (rsiSeries 2 [(1 : ℚ), 2, 4]).getD 2 FloatE.nan = FloatE.fin 100 := by
  have hg : (rollMeanF 2 (gainsOf [(1 : ℚ), 2, 4])).getD 2 FloatE.nan = FloatE.fin (3/2) := by
    norm_num [rollMeanF, gainsOf, List.range_succ]
  have hl : (rollMeanF 2 (lossesOf [(1 : ℚ), 2, 4])).getD 2 FloatE.nan = FloatE.fin 0 := by
    norm_num [rollMeanF, lossesOf, List.range_succ]
  exact ⟨⟨by norm_num, hg, hl, by norm_num⟩,
    C7_rsi_avg_loss_zero [(1 : ℚ), 2, 4] 2 2 (3/2) (by norm_num) hg hl (by norm_num)⟩

/-! ## MetricsEngine: CAGR (src/backtester.py, `Backtester.evaluate`,
lines 93-95)

`num_years = (index[-1] - index[0]).days / 365.25` and
`cagr = (final_value / initial_cash) ** (1 / num_years) - 1`.
Dates are modelled as integer day numbers; `1 / num_years` raises
`ZeroDivisionError` in Python when the calendar span is zero, so the
computation is modelled with `Except`. -/

/-- `num_years = (index[-1] - index[0]).days / 365.25`. -/
def numYears (d0 dLast : ℤ) : ℚ :=
  ((dLast - d0 : ℤ) : ℚ) / (1461 / 4)

/-- The CAGR computation of `evaluate()`: the exponent `1 / num_years`
faults when `num_years = 0`; otherwise the real power is taken. -/
noncomputable def cagrOf (finalValue initialCash : ℚ) (d0 dLast : ℤ) : Except String ℝ :=
  if numYears d0 dLast = 0 then Except.error "ZeroDivisionError"
  else Except.ok
    (((finalValue / initialCash : ℚ) : ℝ) ^ (((1 / numYears d0 dLast : ℚ)) : ℝ) - 1)

/-- C6: the exponent used by the code is `365.25 / days_elapsed` exactly
as the claim's formula states, but the zero-span case is NOT guarded: on
a single-day backtest (first and last price date equal, here day number
738887 for 2024-01-02) the computation raises `ZeroDivisionError` instead
of being guarded explicitly. -/
theorem C6_cagr_zero_span_fault :
    cagrOf 100000 100000 738887 738887 = Except.error "ZeroDivisionError"
      ∧ ∀ d0 dLast : ℤ, (1 : ℚ) / numYears d0 dLast
        = (1461 / 4) / ((dLast - d0 : ℤ) : ℚ) := by
  constructor
  · have h : numYears 738887 738887 = 0 := by norm_num [numYears]
    rw [cagrOf, if_pos h]
  · intro d0 dLast
    rw [numYears, one_div_div]

/-! ## Trade log and per-trade metrics
(src/core/backtester.py, `Backtester.get_trade_log` lines 119-151 and
`Backtester.evaluate_trades` lines 178-195). -/

/-- The `Action` field of a trade-log entry. -/
inductive TradeAction where
  | buy
  | sell
  deriving Repr, DecidableEq

/-- One trade-log row: the row index stands for the date string; `pnl`
is `none` for a Buy (the source stores the empty string) and
`some (round(sell - buy, 2))` for a Sell. -/
structure TradeLogEntry where
  idx : ℕ
  action : TradeAction
  price : ℚ
  pnl : Option ℚ
  deriving Repr, DecidableEq

/-- Python's `round(q, n)` rounds half to even; the integer-rounding
core. -/
def roundHalfEven (q : ℚ) : ℤ :=
  if q - ⌊q⌋ < 1/2 then ⌊q⌋
  else if 1/2 < q - ⌊q⌋ then ⌊q⌋ + 1
  else if Even ⌊q⌋ then ⌊q⌋ else ⌊q⌋ + 1

/-- `round(q, 2)`. -/
def round2 (q : ℚ) : ℚ :=
  (roundHalfEven (q * 100) : ℚ) / 100

/-- The `get_trade_log` loop: walks rows carrying the currently open buy
(its rounded price), appending a Buy entry on `trade == 1` (replacing any
open one) and a Sell entry with realized P&L on `trade == -1` when a buy
is open. -/
def tradeLogGo (openT : Option ℚ) (i : ℕ) : List (ℚ × ℚ) → List TradeLogEntry
  | [] => []
  | (trade, price) :: rest =>
    if trade = 1 then
      { idx := i, action := TradeAction.buy, price := round2 price, pnl := none }
        :: tradeLogGo (some (round2 price)) (i + 1) rest
    else if trade = -1 then
      match openT with
      | some op =>
        { idx := i, action := TradeAction.sell, price := round2 price,
          pnl := some (round2 (price - op)) }
          :: tradeLogGo none (i + 1) rest
      | none => tradeLogGo openT (i + 1) rest
    else tradeLogGo openT (i + 1) rest

/-- `get_trade_log`: the loop starts at row index 1 (`for i in
range(1, len(self.df))`), never looking at row 0. -/
def getTradeLog (trades closes : List ℚ) : List TradeLogEntry :=
  tradeLogGo none 1 ((trades.zip closes).drop 1)

/-- The `sells` list of `evaluate_trades`: Sell rows whose P&L field is
numeric (Buy rows carry the empty string instead). -/
def closedSells (trades closes : List ℚ) : List TradeLogEntry :=
  (getTradeLog trades closes).filter
    (fun e => decide (e.action = TradeAction.sell) && e.pnl.isSome)

/-- The realized P&L values of the closed round-trips. -/
def sellPnls (trades closes : List ℚ) : List ℚ :=
  (closedSells trades closes).map (fun e => e.pnl.getD 0)

/-- `evaluate_trades`: `(avg_pnl, win_rate, win_loss_ratio)`.  With no
closed trades it returns `(0, 0, 0)`; with no losing trades the ratio is
`+inf`; with losing trades but no winning trades Python's
`sum([])/len([])` raises `ZeroDivisionError`, modelled with `Except`. -/
def evaluateTrades (trades closes : List ℚ) : Except String (ℚ × ℚ × FloatE) :=
  if closedSells trades closes = [] then Except.ok (0, 0, FloatE.fin 0)
  else
    let pnls := sellPnls trades closes
    let wins := pnls.filter (fun p => decide (0 < p))
    let losses := pnls.filter (fun p => decide (p < 0))
    let avgPnl := round2 (pnls.sum / pnls.length)
    let winRate := round2 ((wins.length : ℚ) / (pnls.length : ℚ) * 100)
    if losses = [] then Except.ok (avgPnl, winRate, FloatE.inf)
    else if wins = [] then Except.error "ZeroDivisionError"
    else Except.ok (avgPnl, winRate,
      FloatE.fin (round2 ((wins.sum / wins.length) / |losses.sum / losses.length|)))

/-- C9: with no closed round-trip trades `evaluate_trades` returns the
neutral triple `(0, 0, 0)` rather than dividing by zero, and with closed
trades but no losing trades the win/loss ratio is `+inf`. -/
theorem C9_evaluate_trades_edge_cases (trades closes : List ℚ) :
    (closedSells trades closes = []
        → evaluateTrades trades closes = Except.ok (0, 0, FloatE.fin 0))
      ∧ (closedSells trades closes ≠ []
        → (sellPnls trades closes).filter (fun p => decide (p < 0)) = []
        → ∃ a w, evaluateTrades trades closes = Except.ok (a, w, FloatE.inf)) := by
  constructor
  · intro h
    rw [evaluateTrades, if_pos h]
  · intro hne hnl
    refine ⟨round2 ((sellPnls trades closes).sum / (sellPnls trades closes).length),
      round2 ((((sellPnls trades closes).filter (fun p => decide (0 < p))).length : ℚ)
        / ((sellPnls trades closes).length : ℚ) * 100), ?_⟩
    rw [evaluateTrades, if_neg hne]
    simp [hnl]

/-- Witness for C9: trades `[0, 1, 0]` leave the lone buy open (no
closed trades, neutral zeros); trades `[0, 1, -1]` close one winning
round-trip (P&L 10, no losses, ratio `+inf`). -/
theorem C9_evaluate_trades_edge_cases_witness :
    (closedSells [(0 : ℚ), 1, 0] [(100 : ℚ), 110, 120] = []
        ∧ evaluateTrades [(0 : ℚ), 1, 0] [(100 : ℚ), 110, 120] = Except.ok (0, 0, FloatE.fin 0))
      ∧ (closedSells [(0 : ℚ), 1, -1] [(100 : ℚ), 100, 110] ≠ []
        ∧ (sellPnls [(0 : ℚ), 1, -1] [(100 : ℚ), 100, 110]).filter (fun p => decide (p < 0)) = []
        ∧ ∃ a w, evaluateTrades [(0 : ℚ), 1, -1] [(100 : ℚ), 100, 110]
            = Except.ok (a, w, FloatE.inf)) := by
  have h1 : closedSells [(0 : ℚ), 1, 0] [(100 : ℚ), 110, 120] = [] := by
    norm_num [closedSells, getTradeLog, tradeLogGo, List.zip, round2, roundHalfEven]
  have h2 : closedSells [(0 : ℚ), 1, -1] [(100 : ℚ), 100, 110] ≠ [] := by
    norm_num [closedSells, getTradeLog, tradeLogGo, List.zip, round2, roundHalfEven]
  have h3 : (sellPnls [(0 : ℚ), 1, -1] [(100 : ℚ), 100, 110]).filter (fun p => decide (p < 0)) = [] := by
    norm_num [sellPnls, closedSells, getTradeLog, tradeLogGo, List.zip, round2, roundHalfEven]
  exact ⟨⟨h1, (C9_evaluate_trades_edge_cases [(0 : ℚ), 1, 0] [(100 : ℚ), 110, 120]).1 h1⟩,
    h2, h3, (C9_evaluate_trades_edge_cases [(0 : ℚ), 1, -1] [(100 : ℚ), 100, 110]).2 h2 h3⟩

theorem tradeLogGo_idx_ge (ps : List (ℚ × ℚ)) (openT : Option ℚ) (i : ℕ) :
    ∀ e ∈ tradeLogGo openT i ps, i ≤ e.idx := by
  induction ps generalizing openT i with
  | nil => simp [tradeLogGo]
  | cons p rest ih =>
    obtain ⟨trade, price⟩ := p
    intro e he
    by_cases h1 : trade = 1
    · rw [tradeLogGo.eq_def] at he
      simp only [if_pos h1] at he
      rcases List.mem_cons.mp he with rfl | he2
      · exact le_refl _
      · exact le_trans (Nat.le_succ i) (ih _ _ e he2)
    · by_cases h2 : trade = -1
      · rw [tradeLogGo.eq_def] at he
        simp only [if_neg h1, if_pos h2] at he
        cases openT with
        | some op =>
          rcases List.mem_cons.mp he with rfl | he2
          · exact le_refl _
          · exact le_trans (Nat.le_succ i) (ih _ _ e he2)
        | none => exact le_trans (Nat.le_succ i) (ih _ _ e he)
      · rw [tradeLogGo.eq_def] at he
        simp only [if_neg h1, if_neg h2] at he
        exact le_trans (Nat.le_succ i) (ih _ _ e he)

/-- C10: for every non-empty signal series the Trade column's first entry
is 0 (position 0 starts at 0 and the first difference is filled with 0),
and for every ledger the trade log contains no entry with row index 0:
the `get_trade_log` loop starts at row 1. -/
theorem C10_no_first_day_trade (signals : List ℤ) (hne : signals ≠ [])
    (trades closes : List ℚ) :
    (tradesOf signals).getD 0 0 = 0
      ∧ ∀ e ∈ getTradeLog trades closes, 1 ≤ e.idx := by
  constructor
  · obtain ⟨s, rest, rfl⟩ : ∃ s rest, signals = s :: rest := by
      cases signals with
      | nil => exact absurd rfl hne
      | cons s rest => exact ⟨s, rest, rfl⟩
    rfl
  · exact tradeLogGo_idx_ge _ none 1

/-- Witness for C10 on the signal series `[1, 1, 0]` and a three-day
ledger. -/
theorem C10_no_first_day_trade_witness :
    ([(1 : ℤ), 1, 0] ≠ [])
      ∧ (tradesOf [(1 : ℤ), 1, 0]).getD 0 0 = 0
      ∧ ∀ e ∈ getTradeLog [(0 : ℚ), 1, -1] [(100 : ℚ), 100, 110], 1 ≤ e.idx :=
  ⟨by decide,
    (C10_no_first_day_trade [(1 : ℤ), 1, 0] (by decide) [(0 : ℚ), 1, -1] [(100 : ℚ), 100, 110]).1,
    (C10_no_first_day_trade [(1 : ℤ), 1, 0] (by decide) [(0 : ℚ), 1, -1] [(100 : ℚ), 100, 110]).2⟩

/-! ## GridSearchOptimizer
(src/core/backtester.py `run_parameter_grid_search` lines 203-225 and
src/dashboard.py `run_optimizer` lines 319-327).

`run_parameter_grid_search` iterates `itertools.product(*value_lists)`
— the Cartesian product with the rightmost parameter varying fastest —
runs the full pipeline per combination and collects one result row per
combination, in product order.  The dashboard then ranks the rows with
`sorted(grid_results, key=lambda r: r.get("Sharpe", -inf), reverse=True)`;
Python's `sorted` is a stable sort, and `reverse=True` keeps ties in
input order.  The pipeline run for a combination is abstracted as a
function `f` from the combination to its ranking metric (the Sharpe
value of the result row). -/

/-- `itertools.product(*value_lists)`: all combinations, rightmost list
varying fastest. -/
def cartProd {α : Type} : List (List α) → List (List α)
  | [] => [[]]
  | l :: ls => l.flatMap (fun x => (cartProd ls).map (fun c => x :: c))

/-- `run_parameter_grid_search`: one result row per combination, in
product order, carrying the pipeline's ranking metric. -/
def gridSearch {α : Type} (f : List α → ℚ) (lists : List (List α)) : List (List α × ℚ) :=
  (cartProd lists).map (fun c => (c, f c))

/-- The dashboard's ranking step: a stable sort, descending by the
metric.  Python's stable `sorted(..., reverse=True)` is modelled by
insertion sort with the relation `ranks-no-later-than`. -/
def rankDesc {α : Type} (rs : List (List α × ℚ)) : List (List α × ℚ) :=
  List.insertionSort (fun a b => b.2 ≤ a.2) rs

theorem sum_map_const_nat {α : Type} (l : List α) (c : ℕ) :
    (l.map (fun _ => c)).sum = l.length * c := by
  induction l with
  | nil => simp
  | cons x xs ih => simp [ih, Nat.succ_mul, Nat.add_comm]

/-- C8: the grid search runs the pipeline once for every combination of
the Cartesian product (the result rows are exactly the product in
product order, and their number is the product of the list lengths), and
the ranked output is a permutation of those rows, sorted descending by
the metric, with ties left in input order (for every metric value the
subsequence of rows carrying it is unchanged — stability). -/
theorem C8_grid_search_ranking (α : Type) (f : List α → ℚ) (lists : List (List α)) :
    (gridSearch f lists).map Prod.fst = cartProd lists
      ∧ (∀ c ∈ cartProd lists, (c, f c) ∈ gridSearch f lists)
      ∧ (cartProd lists).length = (lists.map List.length).prod
      ∧ (rankDesc (gridSearch f lists)).Perm (gridSearch f lists)
      ∧ (rankDesc (gridSearch f lists)).Pairwise (fun a b => b.2 ≤ a.2)
      ∧ ∀ q : ℚ, (rankDesc (gridSearch f lists)).filter (fun r => decide (r.2 = q))
          = (gridSearch f lists).filter (fun r => decide (r.2 = q)) := by
  refine ⟨?_, ?_, ?_, ?_, ?_, ?_⟩
  · rw [gridSearch, List.map_map]
    exact List.map_id (cartProd lists)
  · intro c hc
    exact List.mem_map.mpr ⟨c, hc, rfl⟩
  · induction lists with
    | nil => rfl
    | cons l ls ih =>
      rw [cartProd, List.length_flatMap, List.map_cons, List.prod_cons, ← ih]
      have h1 : List.map (List.length ∘ fun x => List.map (fun c => x :: c) (cartProd ls)) l
          = l.map (fun _ => (cartProd ls).length) := by
        apply List.map_congr_left
        intro a _
        simp [Function.comp]
      rw [h1, sum_map_const_nat]
  · exact List.perm_insertionSort _ _
  · haveI : IsTotal (List α × ℚ) (fun a b => b.2 ≤ a.2) := ⟨fun a b => le_total b.2 a.2⟩
    haveI : IsTrans (List α × ℚ) (fun a b => b.2 ≤ a.2) :=
      ⟨fun _ _ _ hab hbc => le_trans hbc hab⟩
    exact List.sorted_insertionSort _ _
  · intro q
    set l := gridSearch f lists with hl
    set p : List α × ℚ → Bool := fun r => decide (r.2 = q) with hp
    have hmemq : ∀ x ∈ List.filter p l, x.2 = q := by
      intro x hx
      have h2 := (List.mem_filter.mp hx).2
      simpa [hp] using h2
    have hpw : List.Pairwise (fun a b => b.2 ≤ a.2) (List.filter p l) := by
      refine List.pairwise_of_forall_mem_list ?_
      intro a ha b hb
      rw [hmemq a ha, hmemq b hb]
    have hsub : List.Sublist (List.filter p l) (rankDesc l) :=
      List.sublist_insertionSort hpw (List.filter_sublist l)
    have hsubf : List.Sublist (List.filter p l) (List.filter p (rankDesc l)) := by
      have h4 : List.filter p (List.filter p l) = List.filter p l := by
        simp [List.filter_filter]
      rw [← h4]
      exact List.Sublist.filter p hsub
    have hperm : List.Perm (List.filter p (rankDesc l)) (List.filter p l) :=
      List.Perm.filter p (List.perm_insertionSort _ l)
    exact (hsubf.eq_of_length hperm.length_eq.symm).symm

/-- Witness for C3's amended formula on the four-day ledger used in the
counterexample: the Returns column starts with 0 and row 2 carries
`T[2]/T[1] - 1`. -/
theorem C3_sharpe_formula_witness :
    (returnsFill (totalsOf (runLedger 100 [(0 : ℚ), 1, 0, 0] [(100 : ℚ), 100, 200, 100]))).getD 0 0 = 0
      ∧ ((1 : ℕ) ≤ 2 ∧ 2 < (totalsOf (runLedger 100 [(0 : ℚ), 1, 0, 0] [(100 : ℚ), 100, 200, 100])).length)
      ∧ (returnsFill (totalsOf (runLedger 100 [(0 : ℚ), 1, 0, 0] [(100 : ℚ), 100, 200, 100]))).getD 2 0
        = (totalsOf (runLedger 100 [(0 : ℚ), 1, 0, 0] [(100 : ℚ), 100, 200, 100])).getD 2 0
            / (totalsOf (runLedger 100 [(0 : ℚ), 1, 0, 0] [(100 : ℚ), 100, 200, 100])).getD 1 0
          - 1 := by
  have hlen : (totalsOf (runLedger 100 [(0 : ℚ), 1, 0, 0] [(100 : ℚ), 100, 200, 100])).length = 4 := by
    norm_num [totalsOf, runLedger, ledgerSteps, List.zip]
  exact ⟨(C3_sharpe_formula 100 [(0 : ℚ), 1, 0, 0] [(100 : ℚ), 100, 200, 100]).2.2.1,
    ⟨by norm_num, by rw [hlen]; norm_num⟩,
    (C3_sharpe_formula 100 [(0 : ℚ), 1, 0, 0] [(100 : ℚ), 100, 200, 100]).2.2.2 2
      (by norm_num) (by rw [hlen]; norm_num)⟩

/-- Witness for C8 on the grid `[[1, 2], [3]]` with the metric
`f c = sum c`: combinations `[[1,3], [2,3]]` in product order, ranked
descending. -/
theorem C8_grid_search_ranking_witness :
    (gridSearch (fun c : List ℕ => (c.sum : ℚ)) [[1, 2], [3]]).map Prod.fst
        = cartProd ([[1, 2], [3]] : List (List ℕ))
      ∧ (([1, 3] : List ℕ) ∈ cartProd ([[1, 2], [3]] : List (List ℕ))
        ∧ (([1, 3] : List ℕ), ((([1, 3] : List ℕ).sum : ℕ) : ℚ))
          ∈ gridSearch (fun c : List ℕ => (c.sum : ℚ)) [[1, 2], [3]])
      ∧ (cartProd ([[1, 2], [3]] : List (List ℕ))).length
        = (([[1, 2], [3]] : List (List ℕ)).map List.length).prod
      ∧ (rankDesc (gridSearch (fun c : List ℕ => (c.sum : ℚ)) [[1, 2], [3]])).Perm
          (gridSearch (fun c : List ℕ => (c.sum : ℚ)) [[1, 2], [3]])
      ∧ (rankDesc (gridSearch (fun c : List ℕ => (c.sum : ℚ)) [[1, 2], [3]])).Pairwise
          (fun a b => b.2 ≤ a.2)
      ∧ (rankDesc (gridSearch (fun c : List ℕ => (c.sum : ℚ)) [[1, 2], [3]])).filter
            (fun r => decide (r.2 = (4 : ℚ)))
        = (gridSearch (fun c : List ℕ => (c.sum : ℚ)) [[1, 2], [3]]).filter
            (fun r => decide (r.2 = (4 : ℚ))) := by
  have h := C8_grid_search_ranking ℕ (fun c : List ℕ => (c.sum : ℚ)) [[1, 2], [3]]
  have hmem : ([1, 3] : List ℕ) ∈ cartProd ([[1, 2], [3]] : List (List ℕ)) := by decide
  exact ⟨h.1, ⟨hmem, h.2.1 [1, 3] hmem⟩, h.2.2.1, h.2.2.2.1, h.2.2.2.2.1, h.2.2.2.2.2 4⟩

end Backtester
